import Mathlib

/-!
Verification of the rust-dumper limit order book matching engine.

The development shallowly embeds the matching engine of the repository:
`src/orderbook/matching.rs` (`OrderBook::match_order`, `OrderBook::peek_match`),
`src/helpers/private.rs` (`will_cross_market`), the dispatcher helpers in
`src/helpers/orderbook_helpers.rs` and `src/helpers/instrument_helpers.rs`.

The `pricelevel` crate (resting orders, `PriceLevel::match_order`, `MatchResult`)
and the repository modules `orderbook/book.rs`, `orderbook/operations.rs`,
`orderbook/modifications.rs` and `orderbook/manager.rs` are not part of the
source tree; where the embedding needs them they are modelled from the design
document (sections 3, 4.1, 4.2, 4.4, 4.5), and each such definition carries a
doc comment saying so.  Machine integers (`u64`) are modelled as `Nat`: all
quantities are subtractions of smaller from larger or saturating operations,
so no wrap-around behaviour is observable in the modelled paths.  Wall-clock
driven expiry (`TimeInForce::is_expired`) is outside the pure model; no claim
under verification depends on it.
-/

/-- `pricelevel::Side` (external crate, fixed by the spec §3): Buy or Sell. -/
inductive Side where
  | buy
  | sell
deriving DecidableEq, Repr

/-- `Side::opposite`. -/
def Side.opposite : Side → Side
  | .buy => .sell
  | .sell => .buy

/-- `pricelevel::TimeInForce` (external crate, fixed by the spec §3).
Expiry evaluation is time-dependent and out of the pure model. -/
inductive TimeInForce where
  | GTC
  | IOC
  | FOK
  | DAY
  | GTD (expiryMs : Nat)
deriving DecidableEq, Repr

/-- A trade transaction as produced per level (spec §4.1:
`(txn_id, price, quantity, maker_id, taker_id)`). -/
structure Transaction where
  txnId : Nat
  price : Nat
  quantity : Nat
  makerId : Nat
  takerId : Nat
deriving DecidableEq, Repr

/-- Modelled from the spec: a resting order inside a `pricelevel::PriceLevel`
(the crate is not in the repository).  Only the identity, the remaining
quantity and the time-in-force are observable by the verified claims; the
hidden-reserve accounting of Iceberg/Reserve variants folds into the
remaining quantity and expiry is out of the model. -/
structure RestingOrder where
  id : Nat
  quantity : Nat
  tif : TimeInForce
deriving DecidableEq, Repr

/-- Modelled from the spec §3: a price level is a price together with a
FIFO-ordered sequence of resting orders. -/
structure PriceLevel where
  price : Nat
  orders : List RestingOrder
deriving DecidableEq, Repr

/-- `PriceLevel::total_quantity` (spec §4.1 accounting query). -/
def PriceLevel.totalQuantity (l : PriceLevel) : Nat :=
  (l.orders.map (·.quantity)).sum

/-- `PriceLevel::order_count`. -/
def PriceLevel.orderCount (l : PriceLevel) : Nat :=
  l.orders.length

/-- Result of `PriceLevel::match_order` (spec §4.1): transactions, ids of
orders now at zero remaining, leftover incoming quantity, plus the updated
FIFO queue and the next transaction id, which the crate keeps by mutation. -/
structure LevelMatch where
  transactions : List Transaction
  filledOrderIds : List Nat
  remainingQuantity : Nat
  orders : List RestingOrder
  nextTxnId : Nat
deriving DecidableEq, Repr

/-- Modelled from the spec §4.1: `PriceLevel::match_order` consumes resting
orders head-first until the incoming quantity is exhausted or the queue
empties; a partial fill at the head reduces that order's remaining quantity
in place; fully consumed orders are reported in `filled_order_ids`. -/
def levelMatchOrder (takerId price : Nat) : Nat → Nat → List RestingOrder → LevelMatch
  | txnId, qty, [] => ⟨[], [], qty, [], txnId⟩
  | txnId, qty, o :: rest =>
    if qty = 0 then
      ⟨[], [], 0, o :: rest, txnId⟩
    else if o.quantity ≤ qty then
      let lm := levelMatchOrder takerId price (txnId + 1) (qty - o.quantity) rest
      ⟨⟨txnId, price, o.quantity, o.id, takerId⟩ :: lm.transactions,
        o.id :: lm.filledOrderIds, lm.remainingQuantity, lm.orders, lm.nextTxnId⟩
    else
      ⟨[⟨txnId, price, qty, o.id, takerId⟩], [], 0,
        { o with quantity := o.quantity - qty } :: rest, txnId + 1⟩

/-- The per-level price-limit test of `match_order` / `peek_match`
(`matching.rs` lines 78-84 and 202-208): a Buy stops above the limit, a
Sell stops below it. -/
def beyondLimit (side : Side) (limitPrice : Option Nat) (price : Nat) : Bool :=
  match limitPrice with
  | none => false
  | some limit =>
    match side with
    | .buy => decide (limit < price)
    | .sell => decide (price < limit)

/-- `pricelevel::MatchResult` as observed by `match_order`
(modelled from the spec: the crate is not in the repository). -/
structure MatchResult where
  orderId : Nat
  requestedQuantity : Nat
  transactions : List Transaction
  filledOrderIds : List Nat
  remainingQuantity : Nat
  isComplete : Bool
deriving DecidableEq, Repr

/-- Modelled from the spec: `MatchResult::new(order_id, quantity)` starts
with no transactions, full remaining quantity, and the completion flag
unset (spec §4.3 sets `is_complete` only in step 11). -/
def MatchResult.new (orderId quantity : Nat) : MatchResult :=
  ⟨orderId, quantity, [], [], quantity, false⟩

/-- `OrderBookError` from `src/helpers/error.rs`; the payload of
`PriceLevelError` is an external-crate type, modelled as its message. -/
inductive OrderBookError where
  | priceLevelError (message : String)
  | orderNotFound (idRepr : String)
  | invalidPriceLevel (price : Nat)
  | priceCrossing (price : Nat) (side : Side) (oppositePrice : Nat)
  | insufficientLiquidity (side : Side) (requested : Nat) (available : Nat)
  | invalidOperation (message : String)
  | serializationError (message : String)
  | deserializationError (message : String)
  | checksumMismatch (expected : String) (actual : String)
deriving DecidableEq, Repr

/-- The order book state of `orderbook/book.rs` (modelled from the spec §3:
`book.rs` is not under the source tree).  The `SkipMap` sides are ordered
maps iterated in ascending key order, embedded as price-ascending lists of
levels; atomics become plain fields because all mutations are serialized by
the dispatcher (spec §5). -/
structure OrderBook where
  bids : List PriceLevel
  asks : List PriceLevel
  orderLocations : List (Nat × Nat × Side)
  lastTradePrice : Nat
  hasTraded : Bool
  nextTxnId : Nat
deriving DecidableEq, Repr

/-- A freshly created book (spec §4.5: `add_book` creates an empty book). -/
def emptyOrderBook : OrderBook :=
  ⟨[], [], [], 0, false, 0⟩

/-- The side `match_order` matches against (`matching.rs` lines 36-39):
asks for a Buy taker, bids for a Sell taker. -/
def oppositeLevels (ob : OrderBook) : Side → List PriceLevel
  | .buy => ob.asks
  | .sell => ob.bids

/-- Traversal order of the opposite map (`matching.rs` lines 69-72): asks
ascending for Buy, bids descending (reverse iteration) for Sell. -/
def traversalOrder (side : Side) (levels : List PriceLevel) : List PriceLevel :=
  match side with
  | .buy => levels
  | .sell => levels.reverse

/-- Put levels traversed in `traversalOrder` back into ascending storage
order. -/
def restoreOrder (side : Side) (levels : List PriceLevel) : List PriceLevel :=
  match side with
  | .buy => levels
  | .sell => levels.reverse

/-- Replace the matched-against side of the book. -/
def setOppositeLevels (ob : OrderBook) (side : Side) (levels : List PriceLevel) : OrderBook :=
  match side with
  | .buy => { ob with asks := levels }
  | .sell => { ob with bids := levels }

/-- Accumulated effect of the level loop of `match_order`
(`matching.rs` lines 75-135): transactions and filled ids in order,
leftover quantity, prices marked for removal, the updated levels in
traversal order, the last price that produced transactions, and the next
transaction id. -/
structure BookTraversal where
  transactions : List Transaction
  filledOrderIds : List Nat
  remainingQuantity : Nat
  emptyPrices : List Nat
  levels : List PriceLevel
  lastTrade : Option Nat
  nextTxnId : Nat
deriving DecidableEq, Repr

/-- The level loop of `match_order` (`matching.rs` lines 75-135): per level,
stop if beyond the limit; otherwise delegate to the level match, record the
price as last trade when transactions occurred, collect filled ids, mark the
level for removal when its order count hit zero, and stop once the incoming
quantity is exhausted. -/
def matchTraverse (takerId : Nat) (side : Side) (limitPrice : Option Nat) :
    Nat → Nat → List PriceLevel → BookTraversal
  | txnId, qty, [] => ⟨[], [], qty, [], [], none, txnId⟩
  | txnId, qty, lvl :: rest =>
    if beyondLimit side limitPrice lvl.price then
      ⟨[], [], qty, [], lvl :: rest, none, txnId⟩
    else
      let lm := levelMatchOrder takerId lvl.price txnId qty lvl.orders
      let lvl' : PriceLevel := ⟨lvl.price, lm.orders⟩
      let empties : List Nat := if lm.orders.length = 0 then [lvl.price] else []
      let here : Option Nat := if lm.transactions.isEmpty then none else some lvl.price
      if lm.remainingQuantity = 0 then
        ⟨lm.transactions, lm.filledOrderIds, 0, empties, lvl' :: rest, here, lm.nextTxnId⟩
      else
        let tr := matchTraverse takerId side limitPrice lm.nextTxnId lm.remainingQuantity rest
        ⟨lm.transactions ++ tr.transactions, lm.filledOrderIds ++ tr.filledOrderIds,
          tr.remainingQuantity, empties ++ tr.emptyPrices, lvl' :: tr.levels,
          tr.lastTrade.orElse (fun _ => here), tr.nextTxnId⟩

/-- `OrderBook::match_order` (`matching.rs` lines 24-167).  The state
threading makes the interior mutability explicit: the returned book is the
book after the call.  The best-price cache and the pooled scratch vectors
are pure optimizations without observable state (spec §5, §9) and are not
part of the modelled state. -/
def matchOrder (ob : OrderBook) (orderId : Nat) (side : Side) (quantity : Nat)
    (limitPrice : Option Nat) : Except OrderBookError MatchResult × OrderBook :=
  let matchSide := oppositeLevels ob side
  if matchSide.isEmpty then
    if limitPrice.isNone then
      (Except.error (OrderBookError.insufficientLiquidity side quantity 0), ob)
    else
      (Except.ok { MatchResult.new orderId quantity with remainingQuantity := quantity }, ob)
  else
    let tr := matchTraverse orderId side limitPrice ob.nextTxnId quantity
      (traversalOrder side matchSide)
    let newLevels := (restoreOrder side tr.levels).filter
      (fun l => decide (l.price ∉ tr.emptyPrices))
    let ob' := { setOppositeLevels ob side newLevels with
      orderLocations := ob.orderLocations.filter (fun loc => decide (loc.1 ∉ tr.filledOrderIds)),
      lastTradePrice := tr.lastTrade.getD ob.lastTradePrice,
      hasTraded := ob.hasTraded || tr.lastTrade.isSome,
      nextTxnId := tr.nextTxnId }
    if limitPrice.isNone && (tr.remainingQuantity == quantity) then
      (Except.error (OrderBookError.insufficientLiquidity side quantity 0), ob')
    else
      (Except.ok ⟨orderId, quantity, tr.transactions, tr.filledOrderIds,
        tr.remainingQuantity, tr.remainingQuantity == 0⟩, ob')

/-- The loop of `OrderBook::peek_match` (`matching.rs` lines 193-216). -/
def peekMatchGo (side : Side) (quantity : Nat) (priceLimit : Option Nat) :
    Nat → List PriceLevel → Nat
  | matched, [] => matched
  | matched, lvl :: rest =>
    if quantity ≤ matched then matched
    else if beyondLimit side priceLimit lvl.price then matched
    else
      let availableQuantity := lvl.totalQuantity
      let neededQuantity := quantity - matched
      let quantityToMatch := min neededQuantity availableQuantity
      peekMatchGo side quantity priceLimit (matched + quantityToMatch) rest

/-- `OrderBook::peek_match` (`matching.rs` lines 174-219): a read-only
simulation summing `total_quantity` per level in the same traversal order
as `match_order`. -/
def peekMatch (ob : OrderBook) (side : Side) (quantity : Nat)
    (priceLimit : Option Nat) : Nat :=
  let priceLevels := oppositeLevels ob side
  if priceLevels.isEmpty then 0
  else peekMatchGo side quantity priceLimit 0 (traversalOrder side priceLevels)

/-- Minimum of a list of prices. -/
def minPriceAux : List Nat → Option Nat
  | [] => none
  | p :: ps =>
    match minPriceAux ps with
    | none => some p
    | some q => some (min p q)

/-- Maximum of a list of prices. -/
def maxPriceAux : List Nat → Option Nat
  | [] => none
  | p :: ps =>
    match maxPriceAux ps with
    | none => some p
    | some q => some (max p q)

/-- Modelled from the spec: `OrderBook::best_ask` lives in
`orderbook/operations.rs`, which is not under the source tree; per the
glossary it is the lowest resting ask price. -/
def bestAsk (ob : OrderBook) : Option Nat :=
  minPriceAux (ob.asks.map (·.price))

/-- Modelled from the spec: `OrderBook::best_bid` (lowest counterpart of
`bestAsk`): the highest resting bid price. -/
def bestBid (ob : OrderBook) : Option Nat :=
  maxPriceAux (ob.bids.map (·.price))

/-- `OrderBook::will_cross_market` (`src/helpers/private.rs` lines 29-34):
a Buy crosses when a best ask exists and the price is at or above it; a
Sell crosses when a best bid exists and the price is at or below it. -/
def willCrossMarket (ob : OrderBook) (price : Nat) (side : Side) : Bool :=
  match side with
  | .buy =>
    match bestAsk ob with
    | some a => decide (a ≤ price)
    | none => false
  | .sell =>
    match bestBid ob with
    | some b => decide (price ≤ b)
    | none => false

/-- Insert a resting order into a price-ascending level list, creating the
level when absent and appending at the tail of the FIFO when present
(spec §4.2 step 5). -/
def insertIntoLevels (price : Nat) (o : RestingOrder) : List PriceLevel → List PriceLevel
  | [] => [⟨price, [o]⟩]
  | l :: ls =>
    if price < l.price then ⟨price, [o]⟩ :: l :: ls
    else if price = l.price then ⟨l.price, l.orders ++ [o]⟩ :: ls
    else l :: insertIntoLevels price o ls

/-- Put a level list on the resting side of an order. -/
def setRestingLevels (ob : OrderBook) (side : Side) (levels : List PriceLevel) : OrderBook :=
  match side with
  | .buy => { ob with bids := levels }
  | .sell => { ob with asks := levels }

/-- The resting side of an order: bids for Buy, asks for Sell. -/
def restingLevels (ob : OrderBook) (side : Side) : List PriceLevel :=
  match side with
  | .buy => ob.bids
  | .sell => ob.asks

/-- Modelled from the spec §4.2: `OrderBook::add_limit_order` is in
`orderbook/modifications.rs`, which is not under the source tree.  Steps:
reject price zero with `InvalidPriceLevel`; reject a duplicate id; reject a
crossing PostOnly entry with `PriceCrossing`; otherwise insert into the
side's map and record the location.  The expiry check of step 3 needs
wall-clock time and is outside the pure model; the dispatcher always
submits standard orders (`extra = None`), hence `postOnly = false` on every
path verified here. -/
def addLimitOrder (ob : OrderBook) (orderId price quantity : Nat) (side : Side)
    (tif : TimeInForce) (postOnly : Bool) : Except OrderBookError Unit × OrderBook :=
  if price = 0 then
    (Except.error (OrderBookError.invalidPriceLevel price), ob)
  else if (List.lookup orderId ob.orderLocations).isSome then
    (Except.error (OrderBookError.invalidOperation "duplicate order id"), ob)
  else if postOnly && willCrossMarket ob price side then
    (Except.error (OrderBookError.priceCrossing price side
      ((match side with | .buy => bestAsk ob | .sell => bestBid ob).getD 0)), ob)
  else
    let o : RestingOrder := ⟨orderId, quantity, tif⟩
    let ob' := { setRestingLevels ob side (insertIntoLevels price o (restingLevels ob side)) with
      orderLocations := (orderId, price, side) :: ob.orderLocations }
    (Except.ok (), ob')

/-- Remove one order id from the level at the given price, dropping the
level when it becomes empty (spec §4.4). -/
def removeOrderFromLevels (price orderId : Nat) : List PriceLevel → List PriceLevel
  | [] => []
  | l :: ls =>
    if l.price = price then
      let l' : PriceLevel := ⟨l.price, l.orders.filter (fun o => decide (o.id ≠ orderId))⟩
      if l'.orders.isEmpty then ls else l' :: ls
    else l :: removeOrderFromLevels price orderId ls

/-- Modelled from the spec §4.4: `OrderBook::cancel_order` (in
`orderbook/modifications.rs`, not under the source tree): look the id up in
`order_locations`, failing with `OrderNotFound` when absent; otherwise
remove it from its level, drop the level if now empty, and erase the
location. -/
def cancelOrder (ob : OrderBook) (orderId : Nat) : Except OrderBookError Unit × OrderBook :=
  match List.lookup orderId ob.orderLocations with
  | none => (Except.error (OrderBookError.orderNotFound (toString orderId)), ob)
  | some (price, side) =>
    let ob' := { setRestingLevels ob side
        (removeOrderFromLevels price orderId (restingLevels ob side)) with
      orderLocations := ob.orderLocations.filter (fun loc => decide (loc.1 ≠ orderId)) }
    (Except.ok (), ob')

/-- Time-in-force of a resting order, looked up for the cancel-and-re-add
modify path. -/
def tifAt (levels : List PriceLevel) (price orderId : Nat) : TimeInForce :=
  match levels.find? (fun l => l.price == price) with
  | none => .GTC
  | some l =>
    match l.orders.find? (fun o => o.id == orderId) with
    | none => .GTC
    | some o => o.tif

/-- Modelled from the spec §4.4 and §7: `OrderBook::update_order` with
`UpdatePriceAndQuantity` cancels the existing order and re-adds a new
logical order under the same id at the new price and quantity, preserving
side and time-in-force; per §7 a failing operation leaves the book
unchanged, so a rejected re-add surfaces its error with the original
state. -/
def updateOrder (ob : OrderBook) (orderId newPrice newQuantity : Nat) :
    Except OrderBookError Unit × OrderBook :=
  match List.lookup orderId ob.orderLocations with
  | none => (Except.error (OrderBookError.orderNotFound (toString orderId)), ob)
  | some (price, side) =>
    let tif := tifAt (restingLevels ob side) price orderId
    let obC := (cancelOrder ob orderId).2
    match addLimitOrder obC orderId newPrice newQuantity side tif false with
    | (Except.ok _, ob₂) => (Except.ok (), ob₂)
    | (Except.error e, _) => (Except.error e, ob)

/-- `match_limit_order(id, qty, side, price)` is
`match_order(id, side, qty, Some(price))` (spec §4.3; `operations.rs` is
not under the source tree). -/
def matchLimitOrder (ob : OrderBook) (orderId quantity : Nat) (side : Side) (price : Nat) :
    Except OrderBookError MatchResult × OrderBook :=
  matchOrder ob orderId side quantity (some price)

/-- `submit_market_order(id, qty, side)` is
`match_order(id, side, qty, None)` (spec §4.3). -/
def submitMarketOrder (ob : OrderBook) (orderId quantity : Nat) (side : Side) :
    Except OrderBookError MatchResult × OrderBook :=
  matchOrder ob orderId side quantity none

/-- MARKET/LIMIT tag of `helpers::types::OrderType` as used by the
dispatcher (`orderbook_helpers.rs` lines 20-39). -/
inductive OrderType where
  | MARKET
  | LIMIT
deriving DecidableEq, Repr

/-- `OrderCreatePayload` as consumed by `handle_order_create`. -/
structure OrderCreatePayload where
  orderId : Nat
  instrumentId : String
  quantity : Nat
  price : Nat
  side : Side
  timeInForce : TimeInForce
  orderType : OrderType
deriving DecidableEq, Repr

/-- `OrderCancelPayload` as consumed by `handle_order_cancel`. -/
structure OrderCancelPayload where
  instrumentId : String
  orderId : Nat
deriving DecidableEq, Repr

/-- `OrderModifyPayload` as consumed by `handle_order_modify`. -/
structure OrderModifyPayload where
  instrumentId : String
  orderId : Nat
  price : Nat
  quantity : Nat
deriving DecidableEq, Repr

/-- `InstrumentCreatePayload` (only the token is read by the handler). -/
structure InstrumentCreatePayload where
  instrumentToken : String
deriving DecidableEq, Repr

/-- `DeleteInstrumentPayload` (only the token is read by the handler). -/
structure DeleteInstrumentPayload where
  instrumentToken : String
deriving DecidableEq, Repr

/-- Modelled from the spec §4.5: `BookManagerStd` (in
`orderbook/manager.rs`, not under the source tree) maps instrument ids to
order books; the hash map is embedded as an association list. -/
structure BookManagerStd where
  books : List (String × OrderBook)
deriving DecidableEq, Repr

/-- `BookManager::get_book`. -/
def BookManagerStd.getBook (m : BookManagerStd) (s : String) : Option OrderBook :=
  List.lookup s m.books

/-- Modelled from the spec §4.5: `BookManager::add_book` is idempotent and
creates an empty book when absent. -/
def BookManagerStd.addBook (m : BookManagerStd) (s : String) : BookManagerStd :=
  if (m.getBook s).isSome then m else ⟨(s, emptyOrderBook) :: m.books⟩

/-- Modelled from the spec §4.5: `BookManager::remove_book` is idempotent
and drops the book and all its orders. -/
def BookManagerStd.removeBook (m : BookManagerStd) (s : String) : BookManagerStd :=
  ⟨m.books.filter (fun p => decide (p.1 ≠ s))⟩

/-- Write a (possibly mutated) book back under its id; the Rust code
mutates the book in place through the manager borrow. -/
def BookManagerStd.setBook (m : BookManagerStd) (s : String) (b : OrderBook) : BookManagerStd :=
  ⟨m.books.map (fun p => if p.1 = s then (s, b) else p)⟩

/-- `handle_instrument_create` (`instrument_helpers.rs` lines 6-15): skip
when the book already exists, otherwise create it. -/
def handleInstrumentCreate (m : BookManagerStd) (instr : InstrumentCreatePayload) :
    BookManagerStd :=
  if (m.getBook instr.instrumentToken).isSome then m
  else m.addBook instr.instrumentToken

/-- `handle_instrument_delete` (`instrument_helpers.rs` lines 17-28): skip
when the book does not exist, otherwise remove it. -/
def handleInstrumentDelete (m : BookManagerStd) (deleteInstr : DeleteInstrumentPayload) :
    BookManagerStd :=
  if (m.getBook deleteInstr.instrumentToken).isNone then m
  else m.removeBook deleteInstr.instrumentToken

/-- The aggressive-limit arm of `handle_order_create`
(`orderbook_helpers.rs` lines 60-94), taking the outcome of
`match_limit_order` together with the book it left behind: on success, rest
the remainder when positive; on failure, fall back to inserting the order
with its full original quantity, price, side, and time-in-force. -/
def handleAggressiveLimit (pr : Except OrderBookError MatchResult × OrderBook)
    (order : OrderCreatePayload) : OrderBook :=
  match pr with
  | (Except.ok mr, book) =>
    if 0 < mr.remainingQuantity then
      (addLimitOrder book order.orderId order.price mr.remainingQuantity order.side
        order.timeInForce false).2
    else book
  | (Except.error _, book) =>
    (addLimitOrder book order.orderId order.price order.quantity order.side
      order.timeInForce false).2

/-- The per-book work of `handle_order_create`
(`orderbook_helpers.rs` lines 20-111): market orders go through
`submit_market_order`; limit orders check aggressiveness against the best
opposite price, matching first when aggressive and resting otherwise. -/
def applyOrderToBook (book : OrderBook) (order : OrderCreatePayload) : OrderBook :=
  match order.orderType with
  | .MARKET => (submitMarketOrder book order.orderId order.quantity order.side).2
  | .LIMIT =>
    let shouldAttemptMatch :=
      match order.side with
      | .buy =>
        match bestAsk book with
        | some a => decide (a ≤ order.price)
        | none => false
      | .sell =>
        match bestBid book with
        | some b => decide (order.price ≤ b)
        | none => false
    if shouldAttemptMatch then
      handleAggressiveLimit
        (matchLimitOrder book order.orderId order.quantity order.side order.price) order
    else
      (addLimitOrder book order.orderId order.price order.quantity order.side
        order.timeInForce false).2

/-- `handle_order_create` (`orderbook_helpers.rs` lines 7-112): create the
book on demand when the instrument is unknown, then process the order
against it. -/
def handleOrderCreate (m : BookManagerStd) (order : OrderCreatePayload) : BookManagerStd :=
  let m₁ := if (m.getBook order.instrumentId).isNone then m.addBook order.instrumentId else m
  match m₁.getBook order.instrumentId with
  | none => m₁
  | some book => m₁.setBook order.instrumentId (applyOrderToBook book order)

/-- `handle_order_cancel` (`orderbook_helpers.rs` lines 114-130): warn and
do nothing when the book is missing, otherwise cancel on the book. -/
def handleOrderCancel (m : BookManagerStd) (order : OrderCancelPayload) : BookManagerStd :=
  match m.getBook order.instrumentId with
  | none => m
  | some book => m.setBook order.instrumentId (cancelOrder book order.orderId).2

/-- `handle_order_modify` (`orderbook_helpers.rs` lines 132-152): warn and
do nothing when the book is missing, otherwise update on the book. -/
def handleOrderModify (m : BookManagerStd) (order : OrderModifyPayload) : BookManagerStd :=
  match m.getBook order.instrumentId with
  | none => m
  | some book => m.setBook order.instrumentId (updateOrder book order.orderId order.price order.quantity).2

/-- Sum of transaction quantities of a match result (spec §8 property 4). -/
def txnQuantitySum (ts : List Transaction) : Nat :=
  (ts.map (·.quantity)).sum

/-- Well-formedness of a book side, after the spec's invariants (§3): no
empty level is present (invariant 3) and every resting order has positive
remaining quantity (orders at zero remaining are removed on fill). -/
def sideWellFormed (levels : List PriceLevel) : Prop :=
  ∀ l ∈ levels, l.orders ≠ [] ∧ ∀ o ∈ l.orders, 0 < o.quantity

instance (levels : List PriceLevel) : Decidable (sideWellFormed levels) := by
  unfold sideWellFormed
  infer_instance

/-- Aggregate total quantity over the levels whose price is not beyond the
limit (the quantity `peek_match` is specified to report). -/
def withinLimitTotal (side : Side) (limitPrice : Option Nat) (levels : List PriceLevel) : Nat :=
  ((levels.filter (fun l => !(beyondLimit side limitPrice l.price))).map
    (·.totalQuantity)).sum

/-- Transaction prices listed in taker-favourable order: non-decreasing for
a Buy taker, non-increasing for a Sell taker (spec §4.3 ordering
guarantee). -/
def priceMonotone (side : Side) (ts : List Transaction) : Prop :=
  ts.Pairwise (fun a b =>
    match side with
    | .buy => a.price ≤ b.price
    | .sell => b.price ≤ a.price)

/-- A small concrete book with two ask levels, used to instantiate the
verified statements. -/
def sampleAskBook : OrderBook :=
  { bids := []
    asks := [⟨100, [⟨1, 3, .GTC⟩]⟩, ⟨101, [⟨2, 5, .GTC⟩]⟩]
    orderLocations := [(1, 100, .sell), (2, 101, .sell)]
    lastTradePrice := 0
    hasTraded := false
    nextTxnId := 0 }

/-- A small concrete book with two bid levels, used to instantiate the
verified statements. -/
def sampleBidBook : OrderBook :=
  { bids := [⟨98, [⟨4, 2, .GTC⟩]⟩, ⟨99, [⟨5, 4, .GTC⟩]⟩]
    asks := []
    orderLocations := [(4, 98, .buy), (5, 99, .buy)]
    lastTradePrice := 0
    hasTraded := false
    nextTxnId := 0 }

/-- A one-instrument manager used to instantiate the dispatcher
statements. -/
def sampleManager : BookManagerStd :=
  ⟨[("X", sampleAskBook)]⟩

/-- The result of matching a Buy of 5 limited at 100 against
`sampleAskBook`: 3 filled at price 100, 2 left unmatched. -/
def sampleFillResult : MatchResult :=
  { orderId := 9
    requestedQuantity := 5
    transactions := [⟨0, 100, 3, 1, 9⟩]
    filledOrderIds := [1]
    remainingQuantity := 2
    isComplete := false }

theorem levelMatchOrder_remaining_le (takerId price txnId qty : Nat)
    (os : List RestingOrder) :
    (levelMatchOrder takerId price txnId qty os).remainingQuantity ≤ qty := by
  induction os generalizing txnId qty with
  | nil => simp [levelMatchOrder]
  | cons o rest ih =>
    simp only [levelMatchOrder]
    split
    · simp
    · split
      · have h := ih (txnId + 1) (qty - o.quantity)
        simpa using h.trans (Nat.sub_le qty o.quantity)
      · simp

theorem levelMatchOrder_sum (takerId price txnId qty : Nat) (os : List RestingOrder) :
    (levelMatchOrder takerId price txnId qty os).remainingQuantity +
      txnQuantitySum (levelMatchOrder takerId price txnId qty os).transactions = qty := by
  induction os generalizing txnId qty with
  | nil => simp [levelMatchOrder, txnQuantitySum]
  | cons o rest ih =>
    simp only [levelMatchOrder]
    split
    · simp only [txnQuantitySum, List.map_nil, List.sum_nil]
      omega
    · split
      · have h := ih (txnId + 1) (qty - o.quantity)
        simp only [txnQuantitySum, List.map_cons, List.sum_cons] at h ⊢
        omega
      · simp only [txnQuantitySum, List.map_cons, List.map_nil, List.sum_cons, List.sum_nil]
        omega

theorem levelMatchOrder_price (takerId price txnId qty : Nat) (os : List RestingOrder) :
    ∀ t ∈ (levelMatchOrder takerId price txnId qty os).transactions, t.price = price := by
  induction os generalizing txnId qty with
  | nil => simp [levelMatchOrder]
  | cons o rest ih =>
    simp only [levelMatchOrder]
    split
    · simp
    · split
      · intro t ht
        simp only [List.mem_cons] at ht
        rcases ht with h | h
        · simp [h]
        · exact ih (txnId + 1) (qty - o.quantity) t h
      · simp

theorem levelMatchOrder_zero (takerId price txnId : Nat) (os : List RestingOrder) :
    levelMatchOrder takerId price txnId 0 os = ⟨[], [], 0, os, txnId⟩ := by
  cases os with
  | nil => simp [levelMatchOrder]
  | cons o rest => simp [levelMatchOrder]

theorem levelMatchOrder_progress (takerId price txnId qty : Nat) (o : RestingOrder)
    (rest : List RestingOrder) (hq : 0 < qty) (ho : 0 < o.quantity) :
    (levelMatchOrder takerId price txnId qty (o :: rest)).remainingQuantity < qty := by
  simp only [levelMatchOrder]
  split
  · omega
  · split
    · have h := levelMatchOrder_remaining_le takerId price (txnId + 1) (qty - o.quantity) rest
      simp only []
      omega
    · simpa using hq

theorem matchTraverse_remaining_le (takerId : Nat) (side : Side) (limitPrice : Option Nat)
    (txnId qty : Nat) (ls : List PriceLevel) :
    (matchTraverse takerId side limitPrice txnId qty ls).remainingQuantity ≤ qty := by
  induction ls generalizing txnId qty with
  | nil => simp [matchTraverse]
  | cons lvl rest ih =>
    simp only [matchTraverse]
    split
    · simp
    · split
      · simp
      · rename_i hne
        have h1 := levelMatchOrder_remaining_le takerId lvl.price txnId qty lvl.orders
        have h2 := ih (levelMatchOrder takerId lvl.price txnId qty lvl.orders).nextTxnId
          (levelMatchOrder takerId lvl.price txnId qty lvl.orders).remainingQuantity
        simp only []
        omega

theorem matchTraverse_sum (takerId : Nat) (side : Side) (limitPrice : Option Nat)
    (txnId qty : Nat) (ls : List PriceLevel) :
    (matchTraverse takerId side limitPrice txnId qty ls).remainingQuantity +
      txnQuantitySum (matchTraverse takerId side limitPrice txnId qty ls).transactions
      = qty := by
  induction ls generalizing txnId qty with
  | nil => simp [matchTraverse, txnQuantitySum]
  | cons lvl rest ih =>
    simp only [matchTraverse]
    split
    · simp [txnQuantitySum]
    · split
      · rename_i hz
        have h := levelMatchOrder_sum takerId lvl.price txnId qty lvl.orders
        simp only []
        omega
      · rename_i hnz
        have h1 := levelMatchOrder_sum takerId lvl.price txnId qty lvl.orders
        have h2 := ih (levelMatchOrder takerId lvl.price txnId qty lvl.orders).nextTxnId
          (levelMatchOrder takerId lvl.price txnId qty lvl.orders).remainingQuantity
        simp only [txnQuantitySum, List.map_append, List.sum_append] at h1 h2 ⊢
        omega

theorem matchTraverse_txn_not_beyond (takerId : Nat) (side : Side) (limitPrice : Option Nat)
    (txnId qty : Nat) (ls : List PriceLevel) :
    ∀ t ∈ (matchTraverse takerId side limitPrice txnId qty ls).transactions,
      beyondLimit side limitPrice t.price = false := by
  induction ls generalizing txnId qty with
  | nil => simp [matchTraverse]
  | cons lvl rest ih =>
    simp only [matchTraverse]
    split
    · simp
    · rename_i hb
      split
      · intro t ht
        have := levelMatchOrder_price takerId lvl.price txnId qty lvl.orders t ht
        rw [this]
        exact Bool.not_eq_true _ ▸ hb
      · intro t ht
        simp only [List.mem_append] at ht
        rcases ht with h | h
        · have := levelMatchOrder_price takerId lvl.price txnId qty lvl.orders t h
          rw [this]
          exact Bool.not_eq_true _ ▸ hb
        · exact ih _ _ t h

theorem matchTraverse_txn_price_mem (takerId : Nat) (side : Side) (limitPrice : Option Nat)
    (txnId qty : Nat) (ls : List PriceLevel) :
    ∀ t ∈ (matchTraverse takerId side limitPrice txnId qty ls).transactions,
      ∃ l ∈ ls, t.price = l.price := by
  induction ls generalizing txnId qty with
  | nil => simp [matchTraverse]
  | cons lvl rest ih =>
    simp only [matchTraverse]
    split
    · simp
    · split
      · intro t ht
        exact ⟨lvl, List.mem_cons_self lvl rest,
          levelMatchOrder_price takerId lvl.price txnId qty lvl.orders t ht⟩
      · intro t ht
        simp only [List.mem_append] at ht
        rcases ht with h | h
        · exact ⟨lvl, List.mem_cons_self lvl rest,
            levelMatchOrder_price takerId lvl.price txnId qty lvl.orders t h⟩
        · obtain ⟨l, hl, hp⟩ := ih _ _ t h
          exact ⟨l, List.mem_cons_of_mem lvl hl, hp⟩

theorem pairwise_of_all_rel {α : Type} (r : α → α → Prop) (xs : List α)
    (h : ∀ a ∈ xs, ∀ b ∈ xs, r a b) : xs.Pairwise r := by
  induction xs with
  | nil => exact List.Pairwise.nil
  | cons x rest ih =>
    refine List.Pairwise.cons ?_ (ih ?_)
    · intro b hb
      exact h x (List.mem_cons_self x rest) b (List.mem_cons_of_mem x hb)
    · intro a ha b hb
      exact h a (List.mem_cons_of_mem x ha) b (List.mem_cons_of_mem x hb)

theorem matchTraverse_pairwise (takerId : Nat) (side : Side) (limitPrice : Option Nat)
    (txnId qty : Nat) (ls : List PriceLevel) (r : Nat → Nat → Prop)
    (hrefl : ∀ a, r a a)
    (hsorted : ls.Pairwise (fun x y => r x.price y.price)) :
    (matchTraverse takerId side limitPrice txnId qty ls).transactions.Pairwise
      (fun a b => r a.price b.price) := by
  induction ls generalizing txnId qty with
  | nil => simp [matchTraverse]
  | cons lvl rest ih =>
    simp only [matchTraverse]
    split
    · simp
    · split
      · refine pairwise_of_all_rel _ _ ?_
        intro a ha b hb
        have hpa := levelMatchOrder_price takerId lvl.price txnId qty lvl.orders a ha
        have hpb := levelMatchOrder_price takerId lvl.price txnId qty lvl.orders b hb
        rw [hpa, hpb]
        exact hrefl _
      · rw [List.pairwise_append]
        rcases List.pairwise_cons.mp hsorted with ⟨hhead, htail⟩
        refine ⟨?_, ih _ _ htail, ?_⟩
        · refine pairwise_of_all_rel _ _ ?_
          intro a ha b hb
          have hpa := levelMatchOrder_price takerId lvl.price txnId qty lvl.orders a ha
          have hpb := levelMatchOrder_price takerId lvl.price txnId qty lvl.orders b hb
          rw [hpa, hpb]
          exact hrefl _
        · intro a ha b hb
          have hpa := levelMatchOrder_price takerId lvl.price txnId qty lvl.orders a ha
          obtain ⟨l, hl, hp⟩ := matchTraverse_txn_price_mem takerId side limitPrice _ _ rest b hb
          rw [hpa, hp]
          exact hhead l hl

theorem matchTraverse_zero (takerId : Nat) (side : Side) (txnId : Nat)
    (lvl : PriceLevel) (rest : List PriceLevel) (hne : lvl.orders ≠ []) :
    matchTraverse takerId side none txnId 0 (lvl :: rest)
      = ⟨[], [], 0, [], lvl :: rest, none, txnId⟩ := by
  simp only [matchTraverse, beyondLimit]
  rw [levelMatchOrder_zero]
  simp [List.length_eq_zero, hne]

theorem matchTraverse_progress (takerId : Nat) (side : Side) (txnId qty : Nat)
    (lvl : PriceLevel) (rest : List PriceLevel) (hq : 0 < qty)
    (hwf : sideWellFormed (lvl :: rest)) :
    (matchTraverse takerId side none txnId qty (lvl :: rest)).remainingQuantity < qty := by
  obtain ⟨hne, hpos⟩ := hwf lvl (List.mem_cons_self lvl rest)
  obtain ⟨o, os, ho⟩ : ∃ o os, lvl.orders = o :: os := by
    cases h : lvl.orders with
    | nil => exact absurd h hne
    | cons a b => exact ⟨a, b, rfl⟩
  have hprog : (levelMatchOrder takerId lvl.price txnId qty lvl.orders).remainingQuantity < qty := by
    rw [ho]
    exact levelMatchOrder_progress takerId lvl.price txnId qty o os hq
      (hpos o (ho ▸ List.mem_cons_self o os))
  simp only [matchTraverse]
  split
  · rename_i hb
    simp [beyondLimit] at hb
  · split
    · dsimp only
      exact hq
    · have := matchTraverse_remaining_le takerId side none
        (levelMatchOrder takerId lvl.price txnId qty lvl.orders).nextTxnId
        (levelMatchOrder takerId lvl.price txnId qty lvl.orders).remainingQuantity rest
      dsimp only
      omega

theorem withinLimitTotal_cons (side : Side) (limitPrice : Option Nat) (lvl : PriceLevel)
    (rest : List PriceLevel) :
    withinLimitTotal side limitPrice (lvl :: rest)
      = (if beyondLimit side limitPrice lvl.price then 0 else lvl.totalQuantity)
        + withinLimitTotal side limitPrice rest := by
  by_cases h : beyondLimit side limitPrice lvl.price
  · simp [withinLimitTotal, List.filter_cons, h]
  · simp [withinLimitTotal, List.filter_cons, h]

theorem withinLimitTotal_all_beyond (side : Side) (limitPrice : Option Nat)
    (ls : List PriceLevel)
    (h : ∀ l ∈ ls, beyondLimit side limitPrice l.price = true) :
    withinLimitTotal side limitPrice ls = 0 := by
  induction ls with
  | nil => simp [withinLimitTotal]
  | cons lvl rest ih =>
    rw [withinLimitTotal_cons, h lvl (List.mem_cons_self lvl rest),
      ih (fun l hl => h l (List.mem_cons_of_mem lvl hl))]
    simp

theorem withinLimitTotal_reverse (side : Side) (limitPrice : Option Nat)
    (ls : List PriceLevel) :
    withinLimitTotal side limitPrice ls.reverse = withinLimitTotal side limitPrice ls := by
  induction ls with
  | nil => rfl
  | cons lvl rest ih =>
    rw [List.reverse_cons, withinLimitTotal_cons]
    simp only [withinLimitTotal, List.filter_append, List.map_append, List.sum_append] at ih ⊢
    simp only [List.filter_cons, List.filter_nil]
    by_cases h : beyondLimit side limitPrice lvl.price
    · simp [h] at ih ⊢
      omega
    · simp [h] at ih ⊢
      omega

theorem peekMatchGo_eq (side : Side) (quantity : Nat) (limitPrice : Option Nat)
    (r : Nat → Nat → Prop)
    (hmono : ∀ a b, r a b → beyondLimit side limitPrice a = true →
      beyondLimit side limitPrice b = true)
    (matched : Nat) (ls : List PriceLevel)
    (hm : matched ≤ quantity)
    (hsorted : ls.Pairwise (fun x y => r x.price y.price)) :
    peekMatchGo side quantity limitPrice matched ls
      = min quantity (matched + withinLimitTotal side limitPrice ls) := by
  induction ls generalizing matched with
  | nil =>
    simp only [peekMatchGo, withinLimitTotal, List.filter_nil, List.map_nil, List.sum_nil]
    omega
  | cons lvl rest ih =>
    rcases List.pairwise_cons.mp hsorted with ⟨hhead, htail⟩
    rw [withinLimitTotal_cons]
    simp only [peekMatchGo]
    split
    · omega
    · split
      · rename_i hnle hb
        have hrest : withinLimitTotal side limitPrice rest = 0 :=
          withinLimitTotal_all_beyond side limitPrice rest
            (fun l hl => hmono lvl.price l.price (hhead l hl) hb)
        omega
      · rename_i hnle hb
        have hm' : matched + min (quantity - matched) lvl.totalQuantity ≤ quantity := by
          omega
        rw [ih _ hm' htail]
        omega

theorem lookup_filter_ne (s : String) (l : List (String × OrderBook)) :
    List.lookup s (l.filter (fun p => decide (p.1 ≠ s))) = none := by
  induction l with
  | nil => simp
  | cons a rest ih =>
    obtain ⟨k, b⟩ := a
    by_cases h : k = s
    · simpa [List.filter_cons, h] using ih
    · have hbeq : (s == k) = false := beq_eq_false_iff_ne.mpr (Ne.symm h)
      simpa [List.filter_cons, h, List.lookup, hbeq] using ih

theorem getBook_addBook (m : BookManagerStd) (s : String) (h : m.getBook s = none) :
    (m.addBook s).getBook s = some emptyOrderBook := by
  have h' : List.lookup s m.books = none := h
  simp [BookManagerStd.addBook, BookManagerStd.getBook, h', List.lookup]

theorem restoreOrder_traversalOrder (side : Side) (ls : List PriceLevel) :
    restoreOrder side (traversalOrder side ls) = ls := by
  cases side <;> simp [restoreOrder, traversalOrder]

theorem filter_price_not_mem_nil (ls : List PriceLevel) :
    ls.filter (fun l => decide (l.price ∉ ([] : List Nat))) = ls := by
  induction ls with
  | nil => rfl
  | cons l rest ih => simp [List.filter_cons, ih]

theorem filter_loc_not_mem_nil (locs : List (Nat × Nat × Side)) :
    locs.filter (fun loc => decide (loc.1 ∉ ([] : List Nat))) = locs := by
  induction locs with
  | nil => rfl
  | cons l rest ih => simp [List.filter_cons, ih]

theorem setOppositeLevels_self (ob : OrderBook) (side : Side) :
    setOppositeLevels ob side (oppositeLevels ob side) = ob := by
  cases side <;> rfl

theorem sideWellFormed_traversalOrder (side : Side) (ls : List PriceLevel)
    (h : sideWellFormed ls) : sideWellFormed (traversalOrder side ls) := by
  intro l hl
  apply h
  cases side with
  | buy => exact hl
  | sell => exact List.mem_reverse.mp (by simpa [traversalOrder] using hl)

theorem traversalOrder_ne_nil (side : Side) (ls : List PriceLevel) (h : ls ≠ []) :
    traversalOrder side ls ≠ [] := by
  cases side with
  | buy => exact h
  | sell =>
    simp only [traversalOrder]
    intro hc
    exact h (List.reverse_eq_nil_iff.mp hc)

theorem matchOrder_market_empty (ob : OrderBook) (oid : Nat) (side : Side) (qty : Nat)
    (h : oppositeLevels ob side = []) :
    matchOrder ob oid side qty none
      = (Except.error (OrderBookError.insufficientLiquidity side qty 0), ob) := by
  simp [matchOrder, h]

theorem matchOrder_limit_empty (ob : OrderBook) (oid : Nat) (side : Side) (qty : Nat)
    (limit : Nat) (h : oppositeLevels ob side = []) :
    matchOrder ob oid side qty (some limit)
      = (Except.ok { MatchResult.new oid qty with remainingQuantity := qty }, ob) := by
  simp [matchOrder, h]

theorem matchOrder_market_zero (ob : OrderBook) (oid : Nat) (side : Side)
    (hne : oppositeLevels ob side ≠ [])
    (hwf : sideWellFormed (oppositeLevels ob side)) :
    matchOrder ob oid side 0 none
      = (Except.error (OrderBookError.insufficientLiquidity side 0 0), ob) := by
  obtain ⟨l₀, rest, htl⟩ : ∃ l₀ rest,
      traversalOrder side (oppositeLevels ob side) = l₀ :: rest := by
    cases h : traversalOrder side (oppositeLevels ob side) with
    | nil => exact absurd h (traversalOrder_ne_nil side _ hne)
    | cons a b => exact ⟨a, b, rfl⟩
  have hl₀ : l₀.orders ≠ [] :=
    (sideWellFormed_traversalOrder side _ hwf l₀ (htl ▸ List.mem_cons_self l₀ rest)).1
  simp only [matchOrder]
  rw [if_neg (by simpa [List.isEmpty_iff] using hne)]
  rw [htl, matchTraverse_zero oid side ob.nextTxnId l₀ rest hl₀]
  simp only [Option.isNone_none, Bool.true_and, beq_self_eq_true, if_true]
  refine Prod.ext rfl ?_
  show ({ setOppositeLevels ob side
      ((restoreOrder side (l₀ :: rest)).filter (fun l => decide (l.price ∉ ([] : List Nat)))) with
    orderLocations := ob.orderLocations.filter (fun loc => decide (loc.1 ∉ ([] : List Nat))),
    lastTradePrice := (none : Option Nat).getD ob.lastTradePrice,
    hasTraded := ob.hasTraded || (none : Option Nat).isSome,
    nextTxnId := ob.nextTxnId } : OrderBook) = ob
  rw [filter_price_not_mem_nil, filter_loc_not_mem_nil, ← htl, restoreOrder_traversalOrder]
  simp only [Option.getD_none, Option.isSome_none, Bool.or_false]
  rw [setOppositeLevels_self]

theorem matchOrder_limit_isOk (ob : OrderBook) (oid : Nat) (side : Side) (qty limit : Nat) :
    ∃ mr, (matchOrder ob oid side qty (some limit)).1 = Except.ok mr := by
  simp only [matchOrder]
  by_cases hempty : (oppositeLevels ob side).isEmpty
  · simp [hempty]
  · simp [hempty]

theorem matchOrder_market_pos_ok (ob : OrderBook) (oid : Nat) (side : Side) (qty : Nat)
    (hq : 0 < qty) (hne : oppositeLevels ob side ≠ [])
    (hwf : sideWellFormed (oppositeLevels ob side)) :
    ∃ mr, (matchOrder ob oid side qty none).1 = Except.ok mr
      ∧ mr.remainingQuantity < qty := by
  obtain ⟨l₀, rest, htl⟩ : ∃ l₀ rest,
      traversalOrder side (oppositeLevels ob side) = l₀ :: rest := by
    cases h : traversalOrder side (oppositeLevels ob side) with
    | nil => exact absurd h (traversalOrder_ne_nil side _ hne)
    | cons a b => exact ⟨a, b, rfl⟩
  have hrem : (matchTraverse oid side none ob.nextTxnId qty (l₀ :: rest)).remainingQuantity
      < qty :=
    matchTraverse_progress oid side ob.nextTxnId qty l₀ rest hq
      (htl ▸ sideWellFormed_traversalOrder side _ hwf)
  simp only [matchOrder]
  rw [if_neg (by simpa [List.isEmpty_iff] using hne)]
  rw [htl]
  rw [if_neg (by simp; omega)]
  exact ⟨_, rfl, hrem⟩

/-- C1: for a market order (`limit_price = None`), `match_order` returns
the error `InsufficientLiquidity` with the taker's side, the requested
quantity and available 0 whenever nothing matched (every returned error is
of that exact shape), and returns `Ok` only with a partial result in which
some quantity matched; one of the two always happens. -/
theorem matchOrder_market_insufficientLiquidity (ob : OrderBook) (oid : Nat)
    (side : Side) (qty : Nat) :
    (∀ e, (matchOrder ob oid side qty none).1 = Except.error e →
      e = OrderBookError.insufficientLiquidity side qty 0)
    ∧ (∀ mr, (matchOrder ob oid side qty none).1 = Except.ok mr →
      mr.remainingQuantity < qty)
    ∧ ((matchOrder ob oid side qty none).1
        = Except.error (OrderBookError.insufficientLiquidity side qty 0)
      ∨ ∃ mr, (matchOrder ob oid side qty none).1 = Except.ok mr
          ∧ mr.remainingQuantity < qty) := by
  by_cases hempty : oppositeLevels ob side = []
  · rw [matchOrder_market_empty ob oid side qty hempty]
    refine ⟨?_, ?_, Or.inl rfl⟩
    · intro e he
      simp only [Except.error.injEq] at he
      exact he.symm
    · intro mr h
      exact Except.noConfusion h
  · have hle := matchTraverse_remaining_le oid side none ob.nextTxnId qty
      (traversalOrder side (oppositeLevels ob side))
    simp only [matchOrder]
    rw [if_neg (by simpa [List.isEmpty_iff] using hempty)]
    split
    · refine ⟨?_, ?_, Or.inl rfl⟩
      · intro e he
        simp only [Except.error.injEq] at he
        exact he.symm
      · intro mr h
        exact Except.noConfusion h
    · rename_i hcond
      have hne : (matchTraverse oid side none ob.nextTxnId qty
          (traversalOrder side (oppositeLevels ob side))).remainingQuantity ≠ qty := by
        simpa using hcond
      refine ⟨?_, ?_, Or.inr ⟨_, rfl, by dsimp only; omega⟩⟩
      · intro e he
        exact Except.noConfusion he
      · intro mr h
        simp only [Except.ok.injEq] at h
        rw [← h]
        dsimp only
        omega

/-- C1 witness: on an empty book a market Buy of 5 fails with
`InsufficientLiquidity{side=Buy, requested=5, available=0}`. -/
theorem matchOrder_market_insufficientLiquidity_witness :
    OrderBookError.insufficientLiquidity Side.buy 5 0
      = OrderBookError.insufficientLiquidity Side.buy 5 0 :=
  (matchOrder_market_insufficientLiquidity emptyOrderBook 1 Side.buy 5).1
    (OrderBookError.insufficientLiquidity Side.buy 5 0) rfl

/-- C2 (amended): for every `Ok` `MatchResult` of `match_order` with a
positive requested quantity, the transaction quantities sum to the
requested quantity minus the remaining quantity, and `is_complete` holds
exactly when the remaining quantity is zero.  (The quantity-sum equation
needs no positivity; the completion-flag equivalence fails only for the
early empty-opposite-side return at requested quantity zero.) -/
theorem matchOrder_sum_isComplete (ob : OrderBook) (oid : Nat) (side : Side)
    (qty : Nat) (lp : Option Nat) (mr : MatchResult) (hq : 0 < qty)
    (h : (matchOrder ob oid side qty lp).1 = Except.ok mr) :
    txnQuantitySum mr.transactions = qty - mr.remainingQuantity
    ∧ (mr.isComplete = true ↔ mr.remainingQuantity = 0) := by
  by_cases hempty : oppositeLevels ob side = []
  · cases lp with
    | none =>
      rw [matchOrder_market_empty ob oid side qty hempty] at h
      exact Except.noConfusion h
    | some limit =>
      rw [matchOrder_limit_empty ob oid side qty limit hempty] at h
      simp only [Except.ok.injEq] at h
      rw [← h]
      simp only [MatchResult.new]
      constructor
      · simp [txnQuantitySum]
      · simp
        omega
  · have hsum := matchTraverse_sum oid side lp ob.nextTxnId qty
      (traversalOrder side (oppositeLevels ob side))
    simp only [matchOrder] at h
    rw [if_neg (by simpa [List.isEmpty_iff] using hempty)] at h
    split at h
    · exact Except.noConfusion h
    · simp only [Except.ok.injEq] at h
      rw [← h]
      dsimp only
      refine ⟨by omega, ?_⟩
      simp [beq_iff_eq]

/-- C2 witness: an aggressive Buy of 5 limited at 100 against
`sampleAskBook` fills 3 at price 100 and leaves 2, with `is_complete`
false. -/
theorem matchOrder_sum_isComplete_witness :
    txnQuantitySum sampleFillResult.transactions
        = 5 - sampleFillResult.remainingQuantity
    ∧ (sampleFillResult.isComplete = true ↔ sampleFillResult.remainingQuantity = 0) :=
  matchOrder_sum_isComplete sampleAskBook 9 Side.buy 5 (some 100) sampleFillResult
    (by decide) rfl

/-- C2 counterexample: a limit order of quantity 0 against an empty
opposite side takes the early return, which never sets `is_complete`; the
call returns `Ok` with `remaining_quantity = 0` but `is_complete = false`,
so the claimed equivalence `is_complete ↔ remaining_quantity = 0` fails. -/
theorem matchOrder_isComplete_counterexample :
    (matchOrder emptyOrderBook 7 Side.buy 0 (some 5)).1
      = Except.ok (⟨7, 0, [], [], 0, false⟩ : MatchResult)
    ∧ ¬ ((false = true) ↔ (0 : Nat) = 0) :=
  ⟨rfl, by decide⟩

/-- C3: whenever a book operation returns an error the book state is
unchanged.  For `match_order` (on a well-formed opposite side: no empty
level rests in the map and every resting order has positive quantity, the
spec's invariants) every error is raised without any state mutation; the
modelled `add_limit_order`, `cancel_order` and `update_order` likewise
return their errors with the state untouched. -/
theorem bookOperations_error_atomic :
    (∀ (ob : OrderBook) (oid : Nat) (side : Side) (qty : Nat) (lp : Option Nat)
        (e : OrderBookError),
      sideWellFormed (oppositeLevels ob side) →
      (matchOrder ob oid side qty lp).1 = Except.error e →
      (matchOrder ob oid side qty lp).2 = ob)
    ∧ (∀ (ob : OrderBook) (oid price qty : Nat) (side : Side) (tif : TimeInForce)
        (postOnly : Bool) (e : OrderBookError),
      (addLimitOrder ob oid price qty side tif postOnly).1 = Except.error e →
      (addLimitOrder ob oid price qty side tif postOnly).2 = ob)
    ∧ (∀ (ob : OrderBook) (oid : Nat) (e : OrderBookError),
      (cancelOrder ob oid).1 = Except.error e →
      (cancelOrder ob oid).2 = ob)
    ∧ (∀ (ob : OrderBook) (oid newPrice newQuantity : Nat) (e : OrderBookError),
      (updateOrder ob oid newPrice newQuantity).1 = Except.error e →
      (updateOrder ob oid newPrice newQuantity).2 = ob) := by
  refine ⟨?_, ?_, ?_, ?_⟩
  · intro ob oid side qty lp e hwf h
    by_cases hempty : oppositeLevels ob side = []
    · cases lp with
      | none => rw [matchOrder_market_empty ob oid side qty hempty]
      | some limit =>
        rw [matchOrder_limit_empty ob oid side qty limit hempty] at h
        exact Except.noConfusion h
    · cases lp with
      | some limit =>
        obtain ⟨mr, hmr⟩ := matchOrder_limit_isOk ob oid side qty limit
        rw [hmr] at h
        exact Except.noConfusion h
      | none =>
        rcases Nat.eq_zero_or_pos qty with h0 | hpos
        · subst h0
          rw [matchOrder_market_zero ob oid side hempty hwf]
        · obtain ⟨mr, hmr, _⟩ := matchOrder_market_pos_ok ob oid side qty hpos hempty hwf
          rw [hmr] at h
          exact Except.noConfusion h
  · intro ob oid price qty side tif postOnly e h
    by_cases h1 : price = 0
    · simp [addLimitOrder, h1]
    · by_cases h2 : (List.lookup oid ob.orderLocations).isSome
      · simp [addLimitOrder, h1, h2]
      · by_cases h3 : postOnly && willCrossMarket ob price side
        · simp [addLimitOrder, h1, h2, h3]
        · simp [addLimitOrder, h1, h2, h3] at h
  · intro ob oid e h
    cases hl : List.lookup oid ob.orderLocations with
    | none => simp [cancelOrder, hl]
    | some loc =>
      obtain ⟨p, s⟩ := loc
      simp [cancelOrder, hl] at h
  · intro ob oid newPrice newQuantity e h
    cases hl : List.lookup oid ob.orderLocations with
    | none => simp [updateOrder, hl]
    | some loc =>
      obtain ⟨p, s⟩ := loc
      simp only [updateOrder, hl] at h ⊢
      rcases hadd : addLimitOrder (cancelOrder ob oid).2 oid newPrice newQuantity s
          (tifAt (restingLevels ob s) p oid) false with ⟨r, ob₂⟩
      rw [hadd] at h
      cases r with
      | ok u => exact Except.noConfusion h
      | error e' => rfl

/-- C3 witness: the failing market order of scenario S2 leaves the empty
book unchanged. -/
theorem bookOperations_error_atomic_witness :
    (matchOrder emptyOrderBook 1 Side.buy 5 none).2 = emptyOrderBook :=
  bookOperations_error_atomic.1 emptyOrderBook 1 Side.buy 5 none
    (OrderBookError.insufficientLiquidity Side.buy 5 0) (by decide) rfl

/-- C4: for a limit order, traversal stops at the first level beyond the
limit, so every transaction of the returned `MatchResult` has price at most
the limit for a Buy taker and at least the limit for a Sell taker. -/
theorem matchOrder_limit_price_bound (ob : OrderBook) (oid : Nat) (side : Side)
    (qty limit : Nat) (mr : MatchResult)
    (h : (matchOrder ob oid side qty (some limit)).1 = Except.ok mr) :
    ∀ t ∈ mr.transactions,
      (side = Side.buy → t.price ≤ limit) ∧ (side = Side.sell → limit ≤ t.price) := by
  by_cases hempty : oppositeLevels ob side = []
  · rw [matchOrder_limit_empty ob oid side qty limit hempty] at h
    simp only [Except.ok.injEq] at h
    rw [← h]
    simp [MatchResult.new]
  · have hnb := matchTraverse_txn_not_beyond oid side (some limit) ob.nextTxnId qty
      (traversalOrder side (oppositeLevels ob side))
    simp only [matchOrder] at h
    rw [if_neg (by simpa [List.isEmpty_iff] using hempty)] at h
    split at h
    · exact Except.noConfusion h
    · simp only [Except.ok.injEq] at h
      rw [← h]
      dsimp only
      intro t ht
      have hb := hnb t ht
      constructor
      · intro hside
        subst hside
        simp only [beyondLimit, decide_eq_false_iff_not, not_lt] at hb
        exact hb
      · intro hside
        subst hside
        simp only [beyondLimit, decide_eq_false_iff_not, not_lt] at hb
        exact hb

/-- C4 witness: a Buy of 10 limited at 100 against `sampleAskBook` trades
only at price 100, within the limit. -/
theorem matchOrder_limit_price_bound_witness :
    (Side.buy = Side.buy → (⟨0, 100, 3, 1, 9⟩ : Transaction).price ≤ 100)
    ∧ (Side.buy = Side.sell → 100 ≤ (⟨0, 100, 3, 1, 9⟩ : Transaction).price) :=
  matchOrder_limit_price_bound sampleAskBook 9 Side.buy 10 100
    ⟨9, 10, [⟨0, 100, 3, 1, 9⟩], [1], 7, false⟩ rfl
    ⟨0, 100, 3, 1, 9⟩ (by decide)

/-- C5: the transactions of an `Ok` `MatchResult` appear in price-priority
order: non-decreasing prices for a Buy taker (asks consumed ascending),
non-increasing for a Sell taker (bids consumed descending), given the
price-sorted side maps the `SkipMap` representation guarantees. -/
theorem matchOrder_price_priority (ob : OrderBook) (oid : Nat) (side : Side)
    (qty : Nat) (lp : Option Nat) (mr : MatchResult)
    (hbids : ob.bids.Pairwise (fun x y => x.price < y.price))
    (hasks : ob.asks.Pairwise (fun x y => x.price < y.price))
    (h : (matchOrder ob oid side qty lp).1 = Except.ok mr) :
    priceMonotone side mr.transactions := by
  by_cases hempty : oppositeLevels ob side = []
  · cases lp with
    | none =>
      rw [matchOrder_market_empty ob oid side qty hempty] at h
      exact Except.noConfusion h
    | some limit =>
      rw [matchOrder_limit_empty ob oid side qty limit hempty] at h
      simp only [Except.ok.injEq] at h
      rw [← h]
      exact List.Pairwise.nil
  · simp only [matchOrder] at h
    rw [if_neg (by simpa [List.isEmpty_iff] using hempty)] at h
    split at h
    · exact Except.noConfusion h
    · simp only [Except.ok.injEq] at h
      rw [← h]
      dsimp only
      cases side with
      | buy =>
        exact matchTraverse_pairwise oid Side.buy lp ob.nextTxnId qty
          (traversalOrder Side.buy (oppositeLevels ob Side.buy)) (· ≤ ·)
          (fun a => le_refl a)
          (hasks.imp le_of_lt)
      | sell =>
        refine matchTraverse_pairwise oid Side.sell lp ob.nextTxnId qty
          (traversalOrder Side.sell (oppositeLevels ob Side.sell)) (fun a b => b ≤ a)
          (fun a => le_refl a) ?_
        simp only [traversalOrder, oppositeLevels]
        exact List.pairwise_reverse.mpr (hbids.imp le_of_lt)

/-- C5 witness: a Sell of 5 against `sampleBidBook` trades first at 99
then at 98, a non-increasing price sequence. -/
theorem matchOrder_price_priority_witness :
    priceMonotone Side.sell [⟨0, 99, 4, 5, 9⟩, ⟨1, 98, 1, 4, 9⟩] :=
  matchOrder_price_priority sampleBidBook 9 Side.sell 5 none
    ⟨9, 5, [⟨0, 99, 4, 5, 9⟩, ⟨1, 98, 1, 4, 9⟩], [5], 0, true⟩
    (by decide) (by decide) rfl

/-- C6: `peek_match` returns the matchable quantity: the minimum of the
requested quantity and the total quantity over the opposite side's levels
whose price is not beyond the limit, under the price-sorted side maps the
`SkipMap` representation guarantees.  In the embedding `peekMatch` is a
plain function of the book, so it cannot mutate state. -/
theorem peekMatch_spec (ob : OrderBook) (side : Side) (qty : Nat)
    (priceLimit : Option Nat)
    (hbids : ob.bids.Pairwise (fun x y => x.price < y.price))
    (hasks : ob.asks.Pairwise (fun x y => x.price < y.price)) :
    peekMatch ob side qty priceLimit
      = min qty (withinLimitTotal side priceLimit (oppositeLevels ob side)) := by
  simp only [peekMatch]
  by_cases hempty : (oppositeLevels ob side).isEmpty
  · rw [if_pos hempty]
    rw [List.isEmpty_iff] at hempty
    simp [hempty, withinLimitTotal]
  · rw [if_neg hempty]
    cases side with
    | buy =>
      rw [peekMatchGo_eq Side.buy qty priceLimit (· ≤ ·) ?_ 0
        (traversalOrder Side.buy (oppositeLevels ob Side.buy)) (Nat.zero_le qty)
        (hasks.imp le_of_lt)]
      · simp [traversalOrder, oppositeLevels]
      · intro a b hab hbeyond
        cases priceLimit with
        | none => simp [beyondLimit] at hbeyond
        | some limit =>
          simp only [beyondLimit, decide_eq_true_eq] at hbeyond ⊢
          omega
    | sell =>
      rw [peekMatchGo_eq Side.sell qty priceLimit (fun a b => b ≤ a) ?_ 0
        (traversalOrder Side.sell (oppositeLevels ob Side.sell)) (Nat.zero_le qty)
        (List.pairwise_reverse.mpr (hbids.imp le_of_lt))]
      · simp only [traversalOrder, oppositeLevels, Nat.zero_add]
        rw [withinLimitTotal_reverse]
      · intro a b hab hbeyond
        cases priceLimit with
        | none => simp [beyondLimit] at hbeyond
        | some limit =>
          simp only [beyondLimit, decide_eq_true_eq] at hbeyond ⊢
          omega

/-- C6 witness: peeking a Buy of 6 limited at 100 against `sampleAskBook`
reports 3 = min 6 (total within the limit). -/
theorem peekMatch_spec_witness :
    peekMatch sampleAskBook Side.buy 6 (some 100)
      = min 6 (withinLimitTotal Side.buy (some 100) (oppositeLevels sampleAskBook Side.buy)) :=
  peekMatch_spec sampleAskBook Side.buy 6 (some 100) (by decide) (by decide)

/-- C7: a command for an instrument with no existing book: `OrderCreate`
creates the book on demand and then processes the order against the fresh
empty book, while `OrderCancel` and `OrderModify` warn and leave the
book-manager map and all books unchanged. -/
theorem dispatcher_missing_book (m : BookManagerStd) (co : OrderCreatePayload)
    (cc : OrderCancelPayload) (cm : OrderModifyPayload)
    (hco : m.getBook co.instrumentId = none)
    (hcc : m.getBook cc.instrumentId = none)
    (hcm : m.getBook cm.instrumentId = none) :
    handleOrderCreate m co
      = (m.addBook co.instrumentId).setBook co.instrumentId
          (applyOrderToBook emptyOrderBook co)
    ∧ handleOrderCancel m cc = m
    ∧ handleOrderModify m cm = m := by
  refine ⟨?_, ?_, ?_⟩
  · simp only [handleOrderCreate, hco, Option.isNone_none, if_true]
    rw [getBook_addBook m co.instrumentId hco]
  · simp [handleOrderCancel, hcc]
  · simp [handleOrderModify, hcm]

/-- C7 witness: commands for the unknown instrument Y against
`sampleManager`: create adds and processes, cancel and modify are
no-ops. -/
theorem dispatcher_missing_book_witness :
    handleOrderCreate sampleManager ⟨21, "Y", 5, 50, Side.buy, .GTC, .LIMIT⟩
      = (sampleManager.addBook "Y").setBook "Y"
          (applyOrderToBook emptyOrderBook ⟨21, "Y", 5, 50, Side.buy, .GTC, .LIMIT⟩)
    ∧ handleOrderCancel sampleManager ⟨"Y", 21⟩ = sampleManager
    ∧ handleOrderModify sampleManager ⟨"Y", 21, 60, 2⟩ = sampleManager :=
  dispatcher_missing_book sampleManager ⟨21, "Y", 5, 50, Side.buy, .GTC, .LIMIT⟩
    ⟨"Y", 21⟩ ⟨"Y", 21, 60, 2⟩ (by decide) (by decide) (by decide)

/-- C8: `will_cross_market` returns true for a Buy exactly when a best ask
exists and the price is at or above it, and for a Sell exactly when a best
bid exists and the price is at or below it; with an empty opposite side it
returns false. -/
theorem willCrossMarket_spec (ob : OrderBook) (price : Nat) :
    (willCrossMarket ob price Side.buy = true
      ↔ ∃ a, bestAsk ob = some a ∧ a ≤ price)
    ∧ (willCrossMarket ob price Side.sell = true
      ↔ ∃ b, bestBid ob = some b ∧ price ≤ b)
    ∧ (ob.asks = [] → willCrossMarket ob price Side.buy = false)
    ∧ (ob.bids = [] → willCrossMarket ob price Side.sell = false) := by
  refine ⟨?_, ?_, ?_, ?_⟩
  · simp only [willCrossMarket]
    cases hba : bestAsk ob with
    | none => simp
    | some a => simp
  · simp only [willCrossMarket]
    cases hbb : bestBid ob with
    | none => simp
    | some b => simp
  · intro h
    simp [willCrossMarket, bestAsk, h, minPriceAux]
  · intro h
    simp [willCrossMarket, bestBid, h, maxPriceAux]

/-- C8 witness: against `sampleAskBook` (best ask 100) a Buy at 100
crosses, and with empty bids a Sell at 100 does not. -/
theorem willCrossMarket_spec_witness :
    (willCrossMarket sampleAskBook 100 Side.buy = true
      ↔ ∃ a, bestAsk sampleAskBook = some a ∧ a ≤ 100)
    ∧ willCrossMarket sampleAskBook 100 Side.sell = false :=
  ⟨(willCrossMarket_spec sampleAskBook 100).1,
    (willCrossMarket_spec sampleAskBook 100).2.2.2 rfl⟩

/-- C9: `handle_instrument_create` on an existing book and
`handle_instrument_delete` on an absent book are no-ops, and each handler
applied twice equals the handler applied once. -/
theorem instrument_handlers_idempotent (m : BookManagerStd)
    (i : InstrumentCreatePayload) (d : DeleteInstrumentPayload) (b : OrderBook) :
    (m.getBook i.instrumentToken = some b → handleInstrumentCreate m i = m)
    ∧ (m.getBook d.instrumentToken = none → handleInstrumentDelete m d = m)
    ∧ handleInstrumentCreate (handleInstrumentCreate m i) i = handleInstrumentCreate m i
    ∧ handleInstrumentDelete (handleInstrumentDelete m d) d = handleInstrumentDelete m d := by
  refine ⟨?_, ?_, ?_, ?_⟩
  · intro h
    simp [handleInstrumentCreate, h]
  · intro h
    simp [handleInstrumentDelete, h]
  · by_cases hg : (m.getBook i.instrumentToken).isSome
    · simp [handleInstrumentCreate, hg]
    · have hnone := Option.not_isSome_iff_eq_none.mp hg
      simp [handleInstrumentCreate, hg, getBook_addBook m i.instrumentToken hnone]
  · by_cases hg : (m.getBook d.instrumentToken).isNone
    · simp [handleInstrumentDelete, hg]
    · have hremoved : (m.removeBook d.instrumentToken).getBook d.instrumentToken = none :=
        lookup_filter_ne d.instrumentToken m.books
      simp [handleInstrumentDelete, hg, hremoved]

/-- C9 witness: creating the existing instrument X twice against
`sampleManager` equals creating it once, and deleting the unknown
instrument Y is a no-op. -/
theorem instrument_handlers_idempotent_witness :
    handleInstrumentCreate (handleInstrumentCreate sampleManager ⟨"X"⟩) ⟨"X"⟩
      = handleInstrumentCreate sampleManager ⟨"X"⟩
    ∧ handleInstrumentDelete sampleManager ⟨"Y"⟩ = sampleManager :=
  ⟨(instrument_handlers_idempotent sampleManager ⟨"X"⟩ ⟨"Y"⟩ sampleAskBook).2.2.1,
    (instrument_handlers_idempotent sampleManager ⟨"X"⟩ ⟨"Y"⟩ sampleAskBook).2.1 rfl⟩

theorem lookup_addLimitOrder (ob : OrderBook) (oid price qty : Nat) (side : Side)
    (tif : TimeInForce) (hp : price ≠ 0)
    (hid : List.lookup oid ob.orderLocations = none) :
    List.lookup oid (addLimitOrder ob oid price qty side tif false).2.orderLocations
      = some (price, side) := by
  simp [addLimitOrder, hp, hid, List.lookup]

theorem restingLevels_addLimitOrder (ob : OrderBook) (oid price qty : Nat) (side : Side)
    (tif : TimeInForce) (hp : price ≠ 0)
    (hid : List.lookup oid ob.orderLocations = none) :
    restingLevels (addLimitOrder ob oid price qty side tif false).2 side
      = insertIntoLevels price ⟨oid, qty, tif⟩ (restingLevels ob side) := by
  simp only [addLimitOrder, hp, hid]
  cases side <;> simp [setRestingLevels, restingLevels]

theorem insertIntoLevels_mem (price : Nat) (o : RestingOrder) (ls : List PriceLevel) :
    ∃ l, l ∈ insertIntoLevels price o ls ∧ l.price = price ∧ o ∈ l.orders := by
  induction ls with
  | nil => exact ⟨⟨price, [o]⟩, by simp [insertIntoLevels], rfl, by simp⟩
  | cons hd tl ih =>
    by_cases h1 : price < hd.price
    · exact ⟨⟨price, [o]⟩, by simp [insertIntoLevels, h1], rfl, by simp⟩
    · by_cases h2 : price = hd.price
      · refine ⟨⟨hd.price, hd.orders ++ [o]⟩, ?_, h2.symm, by simp⟩
        simp [insertIntoLevels, h1, h2]
      · obtain ⟨l, hl, hprice, ho⟩ := ih
        refine ⟨l, ?_, hprice, ho⟩
        simp only [insertIntoLevels, if_neg h1, if_neg h2]
        exact List.mem_cons_of_mem hd hl

/-- C10: when the aggressive-limit match reports an error, the dispatcher
does not drop the order: the error arm of `handle_order_create` falls back
to `add_limit_order` with the full original quantity, price, side and
time-in-force, and (for a valid fresh order) the order then rests in the
book with exactly those attributes.  Per the spec §4.3,
`match_limit_order` never actually returns an error, so the arm is
verified over an arbitrary injected error. -/
theorem aggressiveLimit_fallback (ob : OrderBook) (order : OrderCreatePayload)
    (e : OrderBookError) (hp : order.price ≠ 0)
    (hid : List.lookup order.orderId ob.orderLocations = none) :
    handleAggressiveLimit (Except.error e, ob) order
      = (addLimitOrder ob order.orderId order.price order.quantity order.side
          order.timeInForce false).2
    ∧ List.lookup order.orderId
        (handleAggressiveLimit (Except.error e, ob) order).orderLocations
        = some (order.price, order.side)
    ∧ ∃ l, l ∈ restingLevels (handleAggressiveLimit (Except.error e, ob) order) order.side
        ∧ l.price = order.price
        ∧ (⟨order.orderId, order.quantity, order.timeInForce⟩ : RestingOrder) ∈ l.orders := by
  refine ⟨rfl, ?_, ?_⟩
  · show List.lookup order.orderId
      (addLimitOrder ob order.orderId order.price order.quantity order.side
        order.timeInForce false).2.orderLocations = some (order.price, order.side)
    exact lookup_addLimitOrder ob order.orderId order.price order.quantity order.side
      order.timeInForce hp hid
  · show ∃ l, l ∈ restingLevels (addLimitOrder ob order.orderId order.price
        order.quantity order.side order.timeInForce false).2 order.side
      ∧ l.price = order.price
      ∧ (⟨order.orderId, order.quantity, order.timeInForce⟩ : RestingOrder) ∈ l.orders
    rw [restingLevels_addLimitOrder ob order.orderId order.price order.quantity
      order.side order.timeInForce hp hid]
    exact insertIntoLevels_mem order.price
      ⟨order.orderId, order.quantity, order.timeInForce⟩ (restingLevels ob order.side)

/-- C10 witness: an injected matching error for Buy order 9 (price 101,
quantity 5) over `sampleAskBook` makes the handler fall back to the full
resting insert, recording the order's location. -/
theorem aggressiveLimit_fallback_witness :
    handleAggressiveLimit (Except.error (OrderBookError.invalidOperation "m"), sampleAskBook)
        ⟨9, "X", 5, 101, Side.buy, .GTC, .LIMIT⟩
      = (addLimitOrder sampleAskBook 9 101 5 Side.buy .GTC false).2
    ∧ List.lookup 9
        (handleAggressiveLimit
          (Except.error (OrderBookError.invalidOperation "m"), sampleAskBook)
          ⟨9, "X", 5, 101, Side.buy, .GTC, .LIMIT⟩).orderLocations
        = some (101, Side.buy) :=
  ⟨(aggressiveLimit_fallback sampleAskBook ⟨9, "X", 5, 101, Side.buy, .GTC, .LIMIT⟩
      (OrderBookError.invalidOperation "m") (by decide) (by decide)).1,
    (aggressiveLimit_fallback sampleAskBook ⟨9, "X", 5, 101, Side.buy, .GTC, .LIMIT⟩
      (OrderBookError.invalidOperation "m") (by decide) (by decide)).2.1⟩
